import Mathlib

/-!
# Verification of the streaming artifact decoder of `extensionbuilder`

This development embeds, as executable Lean definitions, the streaming
FILE_START / FILE_END parser, the retry loop of `callGeminiAPI` in
`src/CreateExtensionNew.js`, and the server-side `validate_content`
checker documented in `PROJECT_FLOW_DOCUMENTATION.md`, and proves the
behavioural properties stated about them.

Strings are modelled as `List Char`.  The JavaScript regular expressions
`/FILE_START:\s\ast([^\n]+)\n/i` and `/FILE_END:\s\ast([^\n]\ast)/i` are
modelled by explicit leftmost-match scanners with the same greedy,
backtracking semantics.  The whitespace class is modelled by the ASCII
whitespace characters (space, tab, newline, carriage return, vertical
tab, form feed); whitespace beyond ASCII is not modelled.
-/

set_option maxHeartbeats 1000000
set_option maxRecDepth 100000

abbrev Str := List Char

/-- ASCII members of the JavaScript whitespace class. -/
def wsChar (c : Char) : Bool :=
  c = ' ' || c = '\t' || c = '\n' || c = '\r' || c = '\x0b' || c = '\x0c'

/-- `trimEnd` of JavaScript: drop trailing whitespace. -/
def trimEnd (s : Str) : Str :=
  (s.reverse.dropWhile wsChar).reverse

/-- Drop leading whitespace. -/
def trimStart (s : Str) : Str :=
  s.dropWhile wsChar

/-- `trim` of JavaScript: drop whitespace at both ends. -/
def trim (s : Str) : Str :=
  trimEnd (trimStart s)

/-- Case-insensitive character match against a lowercase pattern
character, as the `i` regex flag folds ASCII letters. -/
def ciEq (pat c : Char) : Bool :=
  c = pat || ('a' ≤ pat && pat ≤ 'z' && c.toNat + 32 = pat.toNat)

/-- Does `s` start with `pat`, comparing case-insensitively? -/
def litAt : Str → Str → Bool
  | [], _ => true
  | _ :: _, [] => false
  | p :: ps, c :: cs => ciEq p c && litAt ps cs

/-- Case-sensitive containment test, as `String.prototype.includes`. -/
def containsSub : Str → Str → Bool
  | [], pat => pat.isEmpty
  | s@(_ :: rest), pat => pat.isPrefixOf s || containsSub rest pat

/-- Index of the first character satisfying `p`. -/
def idxOf (p : Char → Bool) : Str → Option Nat
  | [] => none
  | c :: cs => if p c then some 0 else (idxOf p cs).map (· + 1)

/-- Length of the maximal whitespace run at the front of a string
(the maximal text the greedy `\s\ast` can take). -/
def wsLen : Str → Nat
  | [] => 0
  | c :: cs => if wsChar c then wsLen cs + 1 else 0

/-- Lowercase spelling of the start-marker literal. -/
def fileStartPat : Str := "file_start:".data

/-- Lowercase spelling of the end-marker literal. -/
def fileEndPat : Str := "file_end:".data

/-- Exact spelling used by the case-sensitive `includes` checks. -/
def csStart : Str := "FILE_START:".data

/-- Exact spelling used by the case-sensitive `includes` checks. -/
def csEnd : Str := "FILE_END:".data

/-- One attempt of the tail `\s\ast([^\n]+)\n` of the start regex with the
`\s\ast` group fixed to `k` characters: the greedy `[^\n]+` must reach a
newline.  Returns the capture and the consumed length. -/
def tryTail (t : Str) (k : Nat) : Option (Str × Nat) :=
  match idxOf (fun c => c = '\n') (t.drop k) with
  | some (m + 1) => some ((t.drop k).take (m + 1), k + m + 2)
  | _ => none

/-- Backtracking search for the start-regex tail: try the longest
whitespace run first, then shorter ones, as the greedy engine does. -/
def startTailGo (t : Str) : Nat → Option (Str × Nat)
  | 0 => tryTail t 0
  | k + 1 =>
    match tryTail t (k + 1) with
    | some r => some r
    | none => startTailGo t k

/-- Match `/FILE_START:\s\ast([^\n]+)\n/i` at the head of `s`: returns
the captured name and the total matched length. -/
def startMatchAt (s : Str) : Option (Str × Nat) :=
  if litAt fileStartPat s then
    match startTailGo (s.drop fileStartPat.length) (wsLen (s.drop fileStartPat.length)) with
    | some (cap, con) => some (cap, fileStartPat.length + con)
    | none => none
  else none

/-- Leftmost match of the start regex in `b`: `(index, capture, length)`. -/
def findStart : Str → Option (Nat × Str × Nat)
  | [] => none
  | s@(_ :: rest) =>
    match startMatchAt s with
    | some (cap, len) => some (0, cap, len)
    | none => (findStart rest).map (fun r => (r.1 + 1, r.2.1, r.2.2))

/-- Index of the leftmost match of `/FILE_END:/i`; the end regex matches
exactly at occurrences of its literal, since `\s\ast([^\n]\ast)` never
fails.  Only the index is ever used by the source. -/
def findEndIdx : Str → Option Nat
  | [] => none
  | s@(_ :: rest) =>
    if litAt fileEndPat s then some 0 else (findEndIdx rest).map (· + 1)

/-- Does the string end with a colon, as `name.endsWith(":")`? -/
def endsColon (s : Str) : Bool :=
  match s.reverse with
  | ':' :: _ => true
  | _ => false

/-- The mutable parsing state of the streaming loop in `callGeminiAPI`:
`buffer`, `currentFileName`, `currentFileContent`, `generatedFiles`,
`createdFileNames` and `fileIndex` (which counts started artifacts and
stands in for the `ArtifactStarted` side effects), plus the
`streamingText` narrative sink. -/
structure DecState where
  buffer : Str
  currentFileName : Option Str
  currentFileContent : Str
  generatedFiles : List (Str × Str)
  createdFileNames : List Str
  fileIndex : Int
  streamingText : Str
deriving DecidableEq

/-- Processing of one non-empty content delta by the streaming loop of
`callGeminiAPI` (lines 1239-1355 of `CreateExtensionNew.js`): append to
the buffer, then run exactly one of the FILE_START branch, the FILE_END
branch, the in-file progress branch or the narrative branch. -/
def feed (s : DecState) (content : Str) : DecState :=
  if content = [] then s
  else
    let buf := s.buffer ++ content
    match s.currentFileName with
    | none =>
      match findStart buf with
      | some (i, cap, len) =>
        let name := trim cap
        if name = [] ∨ name.length < 2 ∨ endsColon name = true then
          { s with buffer := buf.drop (i + len) }
        else if name ∈ s.createdFileNames then
          { s with buffer := buf.drop (i + len) }
        else
          { s with buffer := buf.drop (i + len), currentFileName := some name,
                   currentFileContent := [], fileIndex := s.fileIndex + 1 }
      | none =>
        if containsSub buf csStart then { s with buffer := buf }
        else { s with buffer := buf, streamingText := s.streamingText ++ content }
    | some nm =>
      match findEndIdx buf with
      | some i =>
        { buffer :=
            match idxOf (fun c => c = '\n') (buf.drop i) with
            | some j => buf.drop (i + j + 1)
            | none => []
          currentFileName := none
          currentFileContent := []
          generatedFiles := s.generatedFiles ++ [(nm, trimEnd (buf.take i))]
          createdFileNames := nm :: s.createdFileNames
          fileIndex := s.fileIndex
          streamingText := s.streamingText }
      | none =>
        if containsSub buf csStart = false ∧ containsSub buf csEnd = false then
          { s with buffer := buf, currentFileContent := buf }
        else { s with buffer := buf }

/-- The parsing state at the start of an attempt. -/
def initState : DecState :=
  { buffer := [], currentFileName := none, currentFileContent := [],
    generatedFiles := [], createdFileNames := [], fileIndex := -1,
    streamingText := [] }

/-- Run the streaming loop over a whole sequence of content deltas. -/
def decode (chunks : List Str) : DecState :=
  chunks.foldl feed initState

/-! ## The retry orchestrator of `callGeminiAPI`

The `while (retryCount <= maxRetries)` loop of `callGeminiAPI`
(lines 1076-1422): HTTP 503 and 429 take the in-line busy-retry path;
every other thrown error (non-OK statuses, and a completed stream with
no manifest file) reaches the catch block, which also retries with the
same exponential backoff until `retryCount` exceeds `maxRetries`.
The environment is abstracted as a map from attempt number to the
attempt's observable outcome. -/

/-- `const maxRetries = 3`. -/
def maxRetries : Nat := 3

/-- Total tries including the first: the loop body runs for
`retryCount = 0, 1, ..., maxRetries`. -/
def maxAttempts : Nat := maxRetries + 1

/-- `name.split("/").pop()`: the part after the last slash. -/
def basename (s : Str) : Str :=
  (s.reverse.takeWhile (fun c => ¬ c = '/')).reverse

/-- Does a generated file populate `structuredCode.manifest`? -/
def isManifestName (n : Str) : Bool :=
  basename n = "manifest.json".data || basename n = "manifest".data

/-- Final value of `structuredCode.manifest`: the `forEach` overwrites,
so the last manifest-named file wins. -/
def lastManifestContent (files : List (Str × Str)) : Option Str :=
  ((files.filter (fun f => isManifestName f.1)).getLast?).map Prod.snd

/-- The `if (!structuredCode.manifest) throw` guard: truthy only when a
manifest-named file exists and its content is non-empty. -/
def manifestOk (files : List (Str × Str)) : Bool :=
  match lastManifestContent files with
  | some c => !c.isEmpty
  | none => false

/-- Observable outcome of one attempt: a non-OK HTTP response with a
status, or a stream of content deltas that is read to its end. -/
inductive AttemptResult where
  | httpError (status : Nat)
  | stream (chunks : List Str)

/-- Terminal failure reasons: the rethrown API error, the rethrown
no-manifest error, or the generic exhaustion error thrown after the
loop exits via the busy path. -/
inductive FailReason where
  | apiError (status : Nat)
  | noManifest
  | exhausted
deriving DecidableEq

deriving instance DecidableEq for Except

/-- What a session run produces: how many attempts were made, the
backoff delays (ms) slept between attempts in order, and the final
result. -/
structure OrchOutcome where
  attempts : Nat
  delays : List Nat
  result : Except FailReason (List (Str × Str))
deriving DecidableEq

/-- One unfolding of the retry loop; `fuel` bounds the number of
loop-condition checks, `rc` is `retryCount`. -/
def orchLoop (f : Nat → AttemptResult) : Nat → Nat → OrchOutcome
  | 0, _ => ⟨0, [], .error .exhausted⟩
  | fuel + 1, rc =>
    if maxRetries < rc then ⟨0, [], .error .exhausted⟩
    else
      match f rc with
      | .httpError status =>
        if status = 503 ∨ status = 429 then
          let r := orchLoop f fuel (rc + 1)
          ⟨r.attempts + 1, 2 ^ (rc + 1) * 1000 :: r.delays, r.result⟩
        else if maxRetries < rc + 1 then ⟨1, [], .error (.apiError status)⟩
        else
          let r := orchLoop f fuel (rc + 1)
          ⟨r.attempts + 1, 2 ^ (rc + 1) * 1000 :: r.delays, r.result⟩
      | .stream chunks =>
        let files := (decode chunks).generatedFiles
        if manifestOk files then ⟨1, [], .ok files⟩
        else if maxRetries < rc + 1 then ⟨1, [], .error .noManifest⟩
        else
          let r := orchLoop f fuel (rc + 1)
          ⟨r.attempts + 1, 2 ^ (rc + 1) * 1000 :: r.delays, r.result⟩

/-- A whole session of `callGeminiAPI`: run the retry loop from
`retryCount = 0`; `maxRetries + 2` condition checks always suffice. -/
def callGeminiAPI (f : Nat → AttemptResult) : OrchOutcome :=
  orchLoop f (maxRetries + 2) 0

/-! ## The server-side `validate_content` checker

Modelled from the Python code shown in
`PROJECT_FLOW_DOCUMENTATION.md` (lines 726-757).  `json.loads` is
embedded as a fuel-bounded recursive-descent JSON parser matching the
default Python decoder (including its `NaN` and `Infinity`
extensions); exceptions other than `JSONDecodeError` (the `TypeError`
and `AttributeError` raised by `in` and `.get` on non-containers)
propagate out of the function, modelled by `Except`. -/

/-- Python object model for decoded JSON values.  A finite number is
kept exactly as a scaled decimal `m * 10 ^ e`; Python compares numbers
by value, so equality tests are value tests on this representation. -/
inductive Json where
  | null
  | bool (b : Bool)
  | num (m e : Int)
  | str (s : Str)
  | arr (elems : List Json)
  | obj (members : List (Str × Json))
  | nan
  | infinity
  | negInfinity

/-- Whitespace skipped between JSON tokens. -/
def jsonWs (c : Char) : Bool :=
  c = ' ' || c = '\t' || c = '\n' || c = '\r'

/-- Skip JSON inter-token whitespace. -/
def dropWs (s : Str) : Str := s.dropWhile jsonWs

/-- Opening curly bracket. -/
def lbrace : Char := Char.ofNat 123

/-- Closing curly bracket. -/
def rbrace : Char := Char.ofNat 125

/-- Numeric value of a decimal digit. -/
def digitVal (c : Char) : Option Nat :=
  if '0' ≤ c && c ≤ '9' then some (c.toNat - 48) else none

/-- Accumulate a run of decimal digits. -/
def parseDigitsAux : Nat → Nat → Str → Nat × Nat × Str
  | acc, cnt, [] => (acc, cnt, [])
  | acc, cnt, c :: cs =>
    match digitVal c with
    | some d => parseDigitsAux (acc * 10 + d) (cnt + 1) cs
    | none => (acc, cnt, c :: cs)

/-- Parse one or more decimal digits: value, digit count, rest. -/
def parseDigits (s : Str) : Option (Nat × Nat × Str) :=
  match parseDigitsAux 0 0 s with
  | (_, 0, _) => none
  | (v, n + 1, r) => some (v, n + 1, r)

/-- JSON integer part: a single `0`, or digits. -/
def parseIntPart : Str → Option (Nat × Str)
  | '0' :: r => some (0, r)
  | s => (parseDigits s).map (fun x => (x.1, x.2.2))

/-- Optional fraction part: value and number of fractional digits. -/
def parseFrac : Str → Option (Nat × Nat × Str)
  | '.' :: r => parseDigits r
  | s => some (0, 0, s)

/-- Optional exponent part: sign and magnitude. -/
def parseExp : Str → Option (Bool × Nat × Str)
  | c :: r =>
    if c = 'e' || c = 'E' then
      match r with
      | '-' :: r2 => (parseDigits r2).map (fun x => (true, x.1, x.2.2))
      | '+' :: r2 => (parseDigits r2).map (fun x => (false, x.1, x.2.2))
      | _ => (parseDigits r).map (fun x => (false, x.1, x.2.2))
    else some (false, 0, c :: r)
  | [] => some (false, 0, [])

/-- Powers of ten. -/
def pow10 : Nat → Nat
  | 0 => 1
  | n + 1 => pow10 n * 10

/-- Scaled-decimal value of a parsed JSON number: the mantissa and the
power-of-ten exponent of `sign(ip.fv) * 10 ^ (sign ev)`. -/
def mkNum (neg : Bool) (ip fv fd : Nat) (eneg : Bool) (ev : Nat) : Int × Int :=
  let m : Int := Int.ofNat (ip * pow10 fd + fv)
  let m' : Int := if neg then -m else m
  let e : Int := (if eneg then -(ev : Int) else (ev : Int)) - (fd : Int)
  (m', e)

/-- Parse a JSON number at the head of the string. -/
def parseNumber (s : Str) : Option (Json × Str) :=
  let signSplit : Bool × Str :=
    match s with
    | '-' :: r => (true, r)
    | _ => (false, s)
  match parseIntPart signSplit.2 with
  | none => none
  | some (ip, s2) =>
    match parseFrac s2 with
    | none => none
    | some (fv, fd, s3) =>
      match parseExp s3 with
      | none => none
      | some (eneg, ev, s4) =>
        some (.num (mkNum signSplit.1 ip fv fd eneg ev).1
                   (mkNum signSplit.1 ip fv fd eneg ev).2, s4)

/-- Value of a hexadecimal digit. -/
def hexVal (c : Char) : Option Nat :=
  if '0' ≤ c && c ≤ '9' then some (c.toNat - 48)
  else if 'a' ≤ c && c ≤ 'f' then some (c.toNat - 87)
  else if 'A' ≤ c && c ≤ 'F' then some (c.toNat - 55)
  else none

/-- Single-character JSON escapes. -/
def escChar : Char → Option Char
  | '"' => some '"'
  | '\\' => some '\\'
  | '/' => some '/'
  | 'b' => some '\x08'
  | 'f' => some '\x0c'
  | 'n' => some '\n'
  | 'r' => some '\r'
  | 't' => some '\t'
  | _ => none

/-- Body of a JSON string after the opening quote; strict mode rejects
unescaped control characters, as Python does. -/
def parseStrBody : Nat → Str → Option (Str × Str)
  | 0, _ => none
  | _ + 1, [] => none
  | fuel + 1, c :: cs =>
    if c = '"' then some ([], cs)
    else if c = '\\' then
      match cs with
      | 'u' :: a :: b :: d :: e :: r =>
        match hexVal a, hexVal b, hexVal d, hexVal e with
        | some x1, some x2, some x3, some x4 =>
          (parseStrBody fuel r).map
            (fun p => (Char.ofNat (((x1 * 16 + x2) * 16 + x3) * 16 + x4) :: p.1, p.2))
        | _, _, _, _ => none
      | esc :: r =>
        match escChar esc with
        | some ec => (parseStrBody fuel r).map (fun p => (ec :: p.1, p.2))
        | none => none
      | [] => none
    else if c.toNat < 32 then none
    else (parseStrBody fuel cs).map (fun p => (c :: p.1, p.2))

mutual

/-- Parse one JSON value at the head of the string. -/
def parseVal : Nat → Str → Option (Json × Str)
  | 0, _ => none
  | fuel + 1, s =>
    match s with
    | [] => none
    | 'n' :: 'u' :: 'l' :: 'l' :: r => some (.null, r)
    | 't' :: 'r' :: 'u' :: 'e' :: r => some (.bool true, r)
    | 'f' :: 'a' :: 'l' :: 's' :: 'e' :: r => some (.bool false, r)
    | 'N' :: 'a' :: 'N' :: r => some (.nan, r)
    | 'I' :: 'n' :: 'f' :: 'i' :: 'n' :: 'i' :: 't' :: 'y' :: r => some (.infinity, r)
    | '-' :: 'I' :: 'n' :: 'f' :: 'i' :: 'n' :: 'i' :: 't' :: 'y' :: r => some (.negInfinity, r)
    | '"' :: r => (parseStrBody (r.length + 1) r).map (fun p => (.str p.1, p.2))
    | c :: r =>
      if c = '[' then
        match dropWs r with
        | ']' :: r2 => some (.arr [], r2)
        | r1 => parseArrElems fuel r1 []
      else if c = lbrace then
        match dropWs r with
        | c2 :: r2 => if c2 = rbrace then some (.obj [], r2) else parseObjMembers fuel (c2 :: r2) []
        | [] => none
      else if c = '-' || (digitVal c).isSome then parseNumber (c :: r)
      else none

/-- Parse the comma-separated elements of a non-empty array. -/
def parseArrElems : Nat → Str → List Json → Option (Json × Str)
  | 0, _, _ => none
  | fuel + 1, s, acc =>
    match parseVal fuel (dropWs s) with
    | none => none
    | some (v, rest) =>
      match dropWs rest with
      | ',' :: r2 => parseArrElems fuel r2 (acc ++ [v])
      | ']' :: r2 => some (.arr (acc ++ [v]), r2)
      | _ => none

/-- Parse the comma-separated members of a non-empty object. -/
def parseObjMembers : Nat → Str → List (Str × Json) → Option (Json × Str)
  | 0, _, _ => none
  | fuel + 1, s, acc =>
    match dropWs s with
    | '"' :: r =>
      match parseStrBody (r.length + 1) r with
      | none => none
      | some (key, r2) =>
        match dropWs r2 with
        | ':' :: r3 =>
          match parseVal fuel (dropWs r3) with
          | none => none
          | some (v, r4) =>
            match dropWs r4 with
            | ',' :: r5 => parseObjMembers fuel r5 (acc ++ [(key, v)])
            | c :: r5 => if c = rbrace then some (.obj (acc ++ [(key, v)]), r5) else none
            | [] => none
        | _ => none
    | _ => none

end

/-- `json.loads`: parse a complete document, allowing only trailing
whitespace.  Returns `none` on `JSONDecodeError`. -/
def json_loads (s : Str) : Option Json :=
  match parseVal (2 * s.length + 8) (dropWs s) with
  | some (v, rest) => if dropWs rest = [] then some v else none
  | none => none

/-- Exceptions other than `JSONDecodeError` escaping the validator
(`TypeError` from `in`, `AttributeError` from `.get`). -/
inductive PyErr where
  | typeError
deriving DecidableEq

/-- The Python `in` operator on a decoded value: key membership for
dicts, element equality for lists, substring test for strings,
`TypeError` otherwise. -/
def pyIn (key : Str) : Json → Except PyErr Bool
  | .obj kvs => .ok (kvs.any (fun kv => kv.1 = key))
  | .arr xs => .ok (xs.any (fun j => match j with | .str s => s = key | _ => false))
  | .str s => .ok (containsSub s key)
  | _ => .error .typeError

/-- Python dict lookup where a later duplicate key overwrites an
earlier one. -/
def dictGet (kvs : List (Str × Json)) (key : Str) : Option Json :=
  (kvs.reverse.find? (fun kv => kv.1 = key)).map Prod.snd

/-- `data.get(field)`: lookup for dicts, `AttributeError` otherwise. -/
def pyGet (key : Str) : Json → Except PyErr (Option Json)
  | .obj kvs => .ok (dictGet kvs key)
  | _ => .error .typeError

/-- Does the scaled decimal `m * 10 ^ e` have the value 3? -/
def numEq3 (m e : Int) : Bool :=
  if 0 ≤ e then m * Int.ofNat (pow10 e.toNat) = 3
  else m = 3 * Int.ofNat (pow10 (-e).toNat)

/-- Is `data.get("manifest_version") != 3` true?  Only a number of
value 3 compares equal to the Python literal `3`. -/
def pyNe3 : Option Json → Bool
  | some (.num m e) => if numEq3 m e then false else true
  | _ => true

/-- Split on newlines, as Python `content.split("\n")`. -/
def splitNl : Str → List Str
  | [] => [[]]
  | c :: cs =>
    if c = '\n' then [] :: splitNl cs
    else
      match splitNl cs with
      | h :: t => (c :: h) :: t
      | [] => [[c]]

/-- Join with newlines, as Python `"\n".join(lines)`. -/
def joinNl : List Str → Str
  | [] => []
  | [x] => x
  | x :: xs => x ++ '\n' :: joinNl xs

/-- ASCII lowercase fold, as Python `.lower()` on this input class. -/
def toLowerAscii (c : Char) : Char :=
  if 'A' ≤ c && c ≤ 'Z' then Char.ofNat (c.toNat + 32) else c

/-- Lowercase a string. -/
def lowerStr (s : Str) : Str := s.map toLowerAscii

/-- The heuristic conversational patterns checked by the validator. -/
def garbagePatterns : List Str :=
  ["here".data ++ '\x27' :: "s".data, "this is a".data, "## ".data]

/-- The check for AI chatter in the first three lines of the content. -/
def aiGarbage (content : Str) : Bool :=
  let firstLines := lowerStr (joinNl ((splitNl content).take 3))
  garbagePatterns.any (fun p => containsSub firstLines p)

/-- Suffix tested by `file_name.endswith(".json")`. -/
def jsonSuffix : Str := ".json".data

/-- The distinguished manifest artifact name. -/
def manifestName : Str := "manifest.json".data

/-- Required manifest key. -/
def mvKey : Str := "manifest_version".data

/-- Required manifest key. -/
def nameKey : Str := "name".data

/-- Required manifest key. -/
def verKey : Str := "version".data

/-- `validate_content` of the server-side agent, translated line by
line from `PROJECT_FLOW_DOCUMENTATION.md`. -/
def validate_content (content file_name : Str) : Except PyErr Bool :=
  if (trim content).length < 50 then .ok false
  else if jsonSuffix.isSuffixOf file_name then
    match json_loads content with
    | none => .ok false
    | some data =>
      if file_name = manifestName then
        match pyIn mvKey data with
        | .error e => .error e
        | .ok mvIn =>
          if mvIn = false then .ok false
          else
            match pyIn nameKey data with
            | .error e => .error e
            | .ok nmIn =>
              if nmIn = false then .ok false
              else
                match pyIn verKey data with
                | .error e => .error e
                | .ok vrIn =>
                  if vrIn = false then .ok false
                  else
                    match pyGet mvKey data with
                    | .error e => .error e
                    | .ok v => if pyNe3 v then .ok false else .ok true
      else .ok true
  else if aiGarbage content then .ok false
  else .ok true

/-! ## Auxiliary definitions for the statements and proofs -/

/-- Pointwise case-insensitive equality of two strings of the same
length (`pat` given in lowercase). -/
def ciStr : Str → Str → Bool
  | [], [] => true
  | p :: ps, c :: cs => ciEq p c && ciStr ps cs
  | _, _ => false

/-- Invariant of the parsing state: completed file names are exactly
`createdFileNames`, are pairwise distinct, and the open artifact is
never an already-completed name. -/
def DecInv (s : DecState) : Prop :=
  ((s.generatedFiles.map Prod.fst).Nodup) ∧
  (∀ n, n ∈ s.generatedFiles.map Prod.fst ↔ n ∈ s.createdFileNames) ∧
  (∀ n, s.currentFileName = some n → n ∉ s.createdFileNames)

/-- Attempt `k` fails with a retry-path busy status (HTTP 503 or 429). -/
def transientAt (f : Nat → AttemptResult) (k : Nat) : Prop :=
  ∃ st, f k = .httpError st ∧ (st = 503 ∨ st = 429)

/-- Attempt `k` streams to completion and yields a manifest file. -/
def goodStreamAt (f : Nat → AttemptResult) (k : Nat) : Prop :=
  ∃ chunks, f k = .stream chunks ∧ manifestOk (decode chunks).generatedFiles = true

/-- Attempt `k` fails in any way: a non-OK HTTP response of any status,
or a completed stream with no manifest artifact. -/
def failAt (f : Nat → AttemptResult) (k : Nat) : Prop :=
  (∃ st, f k = .httpError st) ∨
  (∃ chunks, f k = .stream chunks ∧ manifestOk (decode chunks).generatedFiles = false)

/-- The well-formed two-artifact stream of the specification scenario. -/
def scenarioText : Str :=
  ("FILE_START: a.json\n".data) ++ ("\x7b\"x\":1\x7dFILE_END: a.json\n".data) ++
  ("FILE_START: b.txt\n".data) ++ ("hello worldFILE_END: b.txt\n".data)

/-- First artifact name of the scenario. -/
def aJsonName : Str := "a.json".data

/-- First artifact content of the scenario. -/
def aJsonContent : Str := "\x7b\"x\":1\x7d".data

/-- Second artifact name of the scenario. -/
def bTxtName : Str := "b.txt".data

/-- Second artifact content of the scenario. -/
def bTxtContent : Str := "hello world".data

/-- A delta sequence that completes a manifest artifact. -/
def goodChunks : List Str :=
  ["FILE_START: manifest.json\n".data, "mc".data, "\nFILE_END: m\n".data]

/-- A run whose first attempt fails with HTTP 500 (retryable for the
code, fatal for the specification) and whose second attempt succeeds. -/
def cexF : Nat → AttemptResult :=
  fun k => if k = 0 then .httpError 500 else .stream goodChunks

/-- A run with two busy signals and then a good stream. -/
def busy2F : Nat → AttemptResult :=
  fun k => if k < 2 then .httpError 503 else .stream goodChunks

/-- A run where every attempt is rate-limited. -/
def busyF : Nat → AttemptResult :=
  fun _ => .httpError 429

/-- A parsing state with `a.json` already completed, used to exercise
the duplicate-name skip. -/
def dupState : DecState :=
  { initState with createdFileNames := [aJsonName],
                   generatedFiles := [(aJsonName, aJsonContent)] }

/-- A delta restarting the already-completed `a.json`. -/
def dupChunk : Str := "FILE_START: a.json\nX".data

/-- A parsing state with `a.json` currently open. -/
def pendState : DecState :=
  { initState with currentFileName := some aJsonName }

/-- A delta ending the open artifact under its own name. -/
def endChunk1 : Str := "xFILE_END: a.json\n".data

/-- A delta ending the open artifact under an unrelated name. -/
def endChunk2 : Str := "xFILE_END: zzz.txt\n".data

/-- A delta whose start marker names a single-character file. -/
def badNameChunk : Str := "FILE_START: q\nrest".data

/-- A delta holding only a prefix of a start marker (no newline). -/
def partialChunk : Str := "FILE_START: ab".data

/-- A buffer holding one complete start-marker line. -/
def c3Buf : Str := "FILE_START: ab\nX".data

/-- Deltas that open an artifact and never close it. -/
def truncChunks : List Str := ["FILE_START: ab\n".data, "hi".data]

/-- Name opened by `truncChunks`. -/
def abName : Str := "ab".data

/-- A manifest content accepted by the validator. -/
def mContent : Str :=
  "\x7b\"manifest_version\": 3, \"name\": \"Test Extension Name\", \"version\": \"1.0.0\"\x7d".data

/-! ## Properties of the marker scanners -/

theorem idxOf_spec (p : Char → Bool) :
    ∀ (s : Str) (j : Nat), idxOf p s = some j →
      (∀ x ∈ s.take j, p x = false) ∧ ∃ c, p c = true ∧ s = s.take j ++ c :: s.drop (j + 1) := by
  intro s
  induction s with
  | nil => intro j h; simp [idxOf] at h
  | cons c cs ih =>
    intro j h
    by_cases hp : p c = true
    · simp [idxOf, hp] at h
      subst h
      exact ⟨by simp, c, hp, by simp⟩
    · have hp' : p c = false := by simpa using hp
      simp [idxOf, hp'] at h
      obtain ⟨j', hj', rfl⟩ := h
      obtain ⟨h1, c', hc', hdec⟩ := ih j' hj'
      refine ⟨?_, c', hc', ?_⟩
      · intro x hx
        rw [List.take_succ_cons] at hx
        rcases List.mem_cons.mp hx with hx' | hx'
        · subst hx'; exact hp'
        · exact h1 x hx'
      · rw [List.take_succ_cons, List.drop_succ_cons]
        exact congrArg (c :: ·) hdec

theorem tryTail_spec (t : Str) (k : Nat) (cap : Str) (con : Nat)
    (h : tryTail t k = some (cap, con)) :
    cap ≠ [] ∧ (∀ x ∈ cap, x ≠ '\n') ∧ con = k + cap.length + 1 ∧
      t.drop k = cap ++ '\n' :: t.drop con ∧ (t.take k).length = k := by
  unfold tryTail at h
  rcases hidx : idxOf (fun c => c = '\n') (t.drop k) with _ | j
  · rw [hidx] at h; exact absurd h (by simp)
  · rw [hidx] at h
    rcases j with _ | m
    · exact absurd h (by simp)
    · simp only [Option.some.injEq, Prod.mk.injEq] at h
      obtain ⟨hcap, hcon⟩ := h
      obtain ⟨hnone, c', hc', hdec⟩ := idxOf_spec _ _ _ hidx
      have hc'' : c' = '\n' := by simpa using hc'
      subst hc''
      have hlenu : (t.drop k).length =
          ((t.drop k).take (m + 1)).length + (1 + ((t.drop k).drop (m + 1 + 1)).length) := by
        conv_lhs => rw [hdec]
        simp [List.length_append]
        omega
      have hmle : m + 1 ≤ (t.drop k).length := by
        have := List.length_take (m + 1) (t.drop k)
        omega
      have hlcap : cap.length = m + 1 := by
        rw [← hcap, List.length_take]
        omega
      have hkle : k ≤ t.length := by
        have hne : t.drop k ≠ [] := by
          rw [hdec]; simp
        have hni : ¬ t.length ≤ k := fun hle => hne (List.drop_eq_nil_iff.mpr hle)
        omega
      refine ⟨?_, ?_, by omega, ?_, ?_⟩
      · intro hnil
        rw [hnil] at hlcap
        simp at hlcap
      · intro x hx
        rw [← hcap] at hx
        have := hnone x hx
        simpa using this
      · have hdd : (t.drop k).drop (m + 1 + 1) = t.drop con := by
          have heq : k + (m + 1 + 1) = con := by omega
          rw [List.drop_drop, heq]
        calc t.drop k = (t.drop k).take (m + 1) ++ '\n' :: (t.drop k).drop (m + 1 + 1) := hdec
          _ = cap ++ '\n' :: t.drop con := by rw [hcap, hdd]
      · rw [List.length_take]
        omega

theorem startTailGo_spec (t : Str) :
    ∀ (k : Nat) (cap : Str) (con : Nat), startTailGo t k = some (cap, con) →
      ∃ k', k' ≤ k ∧ tryTail t k' = some (cap, con) := by
  intro k
  induction k with
  | zero =>
    intro cap con h
    exact ⟨0, le_refl 0, h⟩
  | succ k ih =>
    intro cap con h
    unfold startTailGo at h
    rcases htry : tryTail t (k + 1) with _ | r
    · rw [htry] at h
      obtain ⟨k', hk', hh⟩ := ih cap con h
      exact ⟨k', by omega, hh⟩
    · rw [htry] at h
      cases h
      exact ⟨k + 1, le_refl _, htry⟩

theorem wsLen_take (t : Str) :
    ∀ k, k ≤ wsLen t → ∀ x ∈ t.take k, wsChar x = true := by
  induction t with
  | nil => intro k _ x hx; simp at hx
  | cons c cs ih =>
    intro k hk x hx
    rcases k with _ | k
    · simp at hx
    · by_cases hc : wsChar c = true
      · rw [List.take_succ_cons] at hx
        rcases List.mem_cons.mp hx with hx' | hx'
        · subst hx'; exact hc
        · refine ih k ?_ x hx'
          unfold wsLen at hk
          rw [hc] at hk
          simpa using hk
      · unfold wsLen at hk
        have hc' : wsChar c = false := by simpa using hc
        rw [hc'] at hk
        simp at hk

theorem litAt_spec :
    ∀ (pat s : Str), litAt pat s = true →
      (s.take pat.length).length = pat.length ∧ ciStr pat (s.take pat.length) = true := by
  intro pat
  induction pat with
  | nil => intro s _; simp [ciStr]
  | cons p ps ih =>
    intro s h
    rcases s with _ | ⟨c, cs⟩
    · simp [litAt] at h
    · simp only [litAt, Bool.and_eq_true] at h
      obtain ⟨hce, hrest⟩ := h
      obtain ⟨hlen, hci⟩ := ih cs hrest
      refine ⟨?_, ?_⟩
      · simpa [List.length_cons] using hlen
      · simp only [List.length_cons, List.take_succ_cons, ciStr, Bool.and_eq_true]
        exact ⟨hce, hci⟩

theorem startMatchAt_spec (s : Str) (cap : Str) (len : Nat)
    (h : startMatchAt s = some (cap, len)) :
    ∃ lit ws', ciStr fileStartPat lit = true ∧ (∀ x ∈ ws', wsChar x = true) ∧
      cap ≠ [] ∧ (∀ x ∈ cap, x ≠ '\n') ∧
      s = lit ++ (ws' ++ (cap ++ '\n' :: s.drop len)) ∧
      len = lit.length + ws'.length + cap.length + 1 := by
  unfold startMatchAt at h
  by_cases hlit : litAt fileStartPat s = true
  · rw [if_pos hlit] at h
    rcases hgo : startTailGo (s.drop fileStartPat.length) (wsLen (s.drop fileStartPat.length))
        with _ | ⟨cap', con⟩
    · rw [hgo] at h; exact absurd h (by simp)
    · rw [hgo] at h
      simp only [Option.some.injEq, Prod.mk.injEq] at h
      obtain ⟨hcap, hlen⟩ := h
      subst hcap
      obtain ⟨k', hk'le, htry⟩ := startTailGo_spec _ _ _ _ hgo
      obtain ⟨hne, hnl, hcon, hdec, hklen⟩ := tryTail_spec _ _ _ _ htry
      obtain ⟨htlen, hci⟩ := litAt_spec _ _ hlit
      refine ⟨s.take fileStartPat.length, (s.drop fileStartPat.length).take k',
        hci, wsLen_take _ _ hk'le, hne, hnl, ?_, ?_⟩
      · have hdd2 : (s.drop fileStartPat.length).drop con = s.drop len := by
          have heq : fileStartPat.length + con = len := hlen
          rw [List.drop_drop, heq]
        have hmid : s.drop fileStartPat.length = (s.drop fileStartPat.length).take k' ++
            (cap' ++ '\n' :: s.drop len) := by
          calc s.drop fileStartPat.length
              = (s.drop fileStartPat.length).take k' ++ (s.drop fileStartPat.length).drop k' :=
                (List.take_append_drop k' _).symm
            _ = (s.drop fileStartPat.length).take k' ++
                  (cap' ++ '\n' :: (s.drop fileStartPat.length).drop con) := congrArg _ hdec
            _ = (s.drop fileStartPat.length).take k' ++ (cap' ++ '\n' :: s.drop len) := by
                rw [hdd2]
        calc s = s.take fileStartPat.length ++ s.drop fileStartPat.length :=
              (List.take_append_drop fileStartPat.length s).symm
          _ = s.take fileStartPat.length ++ ((s.drop fileStartPat.length).take k' ++
                (cap' ++ '\n' :: s.drop len)) := congrArg _ hmid
      · rw [htlen, hklen]
        omega
  · rw [if_neg hlit] at h
    exact absurd h (by simp)

theorem findStart_spec :
    ∀ (b : Str) (i : Nat) (cap : Str) (len : Nat), findStart b = some (i, cap, len) →
      startMatchAt (b.drop i) = some (cap, len) := by
  intro b
  induction b with
  | nil => intro i cap len h; simp [findStart] at h
  | cons c cs ih =>
    intro i cap len h
    unfold findStart at h
    rcases hm : startMatchAt (c :: cs) with _ | r
    · rw [hm] at h
      simp only [Option.map_eq_some'] at h
      obtain ⟨r', hr', hmk⟩ := h
      obtain ⟨i', cap', len'⟩ := r'
      simp only [Prod.mk.injEq] at hmk
      obtain ⟨hi, hcap, hlen⟩ := hmk
      subst hi; subst hcap; subst hlen
      rw [List.drop_succ_cons]
      exact ih i' cap' len' hr'
    · rw [hm] at h
      obtain ⟨rc, rl⟩ := r
      simp only [Option.some.injEq, Prod.mk.injEq] at h
      obtain ⟨hi, hcap, hlen⟩ := h
      subst hi; subst hcap; subst hlen
      simpa using hm

theorem findEndIdx_lit :
    ∀ (b : Str) (i : Nat), findEndIdx b = some i →
      litAt fileEndPat (b.drop i) = true := by
  intro b
  induction b with
  | nil => intro i h; simp [findEndIdx] at h
  | cons c cs ih =>
    intro i h
    unfold findEndIdx at h
    by_cases hl : litAt fileEndPat (c :: cs) = true
    · rw [if_pos hl] at h
      cases h
      simpa using hl
    · rw [if_neg hl] at h
      simp only [Option.map_eq_some'] at h
      obtain ⟨i', hi', rfl⟩ := h
      rw [List.drop_succ_cons]
      exact ih i' hi'

theorem findStart_decomp (b : Str) (i : Nat) (cap : Str) (len : Nat)
    (h : findStart b = some (i, cap, len)) :
    ∃ lit ws', ciStr fileStartPat lit = true ∧ (∀ x ∈ ws', wsChar x = true) ∧
      cap ≠ [] ∧ (∀ x ∈ cap, x ≠ '\n') ∧
      b = b.take i ++ (lit ++ (ws' ++ (cap ++ '\n' :: b.drop (i + len)))) ∧
      len = lit.length + ws'.length + cap.length + 1 := by
  have hm := findStart_spec b i cap len h
  obtain ⟨lit, ws', hci, hws, hne, hnl, hdec, hlen⟩ := startMatchAt_spec _ _ _ hm
  refine ⟨lit, ws', hci, hws, hne, hnl, ?_, hlen⟩
  have hdd : (b.drop i).drop len = b.drop (i + len) := by
    have heq : i + len = i + len := rfl
    rw [List.drop_drop]
  rw [hdd] at hdec
  calc b = b.take i ++ b.drop i := (List.take_append_drop i b).symm
    _ = b.take i ++ (lit ++ (ws' ++ (cap ++ '\n' :: b.drop (i + len)))) := congrArg _ hdec

/-! ## Branch characterizations of `feed` -/

theorem feed_no_start (s : DecState) (c : Str) (hc : ¬ c = [])
    (hcur : s.currentFileName = none) (hfs : findStart (s.buffer ++ c) = none) :
    feed s c = if containsSub (s.buffer ++ c) csStart
               then { s with buffer := s.buffer ++ c }
               else { s with buffer := s.buffer ++ c,
                             streamingText := s.streamingText ++ c } := by
  unfold feed
  rw [if_neg hc]
  simp only [hcur, hfs]

theorem feed_skip (s : DecState) (c : Str) (i : Nat) (cap : Str) (len : Nat) (hc : ¬ c = [])
    (hcur : s.currentFileName = none)
    (hfs : findStart (s.buffer ++ c) = some (i, cap, len))
    (hbad : (trim cap = [] ∨ (trim cap).length < 2 ∨ endsColon (trim cap) = true) ∨
            trim cap ∈ s.createdFileNames) :
    feed s c = { s with buffer := (s.buffer ++ c).drop (i + len) } := by
  unfold feed
  rw [if_neg hc]
  simp only [hcur, hfs]
  rcases hbad with hbad | hdup
  · rw [if_pos hbad]
  · by_cases hbad2 : trim cap = [] ∨ (trim cap).length < 2 ∨ endsColon (trim cap) = true
    · rw [if_pos hbad2]
    · rw [if_neg hbad2, if_pos hdup]

theorem feed_start (s : DecState) (c : Str) (i : Nat) (cap : Str) (len : Nat) (hc : ¬ c = [])
    (hcur : s.currentFileName = none)
    (hfs : findStart (s.buffer ++ c) = some (i, cap, len))
    (hgood : ¬ (trim cap = [] ∨ (trim cap).length < 2 ∨ endsColon (trim cap) = true))
    (hnew : trim cap ∉ s.createdFileNames) :
    feed s c = { s with buffer := (s.buffer ++ c).drop (i + len),
                        currentFileName := some (trim cap), currentFileContent := [],
                        fileIndex := s.fileIndex + 1 } := by
  unfold feed
  rw [if_neg hc]
  simp only [hcur, hfs]
  rw [if_neg hgood, if_neg hnew]

theorem feed_end (s : DecState) (c : Str) (nm : Str) (i : Nat) (hc : ¬ c = [])
    (hcur : s.currentFileName = some nm)
    (hfe : findEndIdx (s.buffer ++ c) = some i) :
    feed s c = { buffer :=
                   match idxOf (fun ch => ch = '\n') ((s.buffer ++ c).drop i) with
                   | some j => (s.buffer ++ c).drop (i + j + 1)
                   | none => []
                 currentFileName := none
                 currentFileContent := []
                 generatedFiles := s.generatedFiles ++ [(nm, trimEnd ((s.buffer ++ c).take i))]
                 createdFileNames := nm :: s.createdFileNames
                 fileIndex := s.fileIndex
                 streamingText := s.streamingText } := by
  unfold feed
  rw [if_neg hc]
  simp only [hcur, hfe]

theorem feed_progress (s : DecState) (c : Str) (nm : Str) (hc : ¬ c = [])
    (hcur : s.currentFileName = some nm)
    (hfe : findEndIdx (s.buffer ++ c) = none) :
    feed s c = if containsSub (s.buffer ++ c) csStart = false ∧
                  containsSub (s.buffer ++ c) csEnd = false
               then { s with buffer := s.buffer ++ c,
                             currentFileContent := s.buffer ++ c }
               else { s with buffer := s.buffer ++ c } := by
  unfold feed
  rw [if_neg hc]
  simp only [hcur, hfe]

/-! ## The duplicate-names invariant -/

theorem decInv_init : DecInv initState := by
  refine ⟨by simp [initState], by simp [initState], by simp [initState]⟩

theorem decInv_feed (s : DecState) (c : Str) (h : DecInv s) : DecInv (feed s c) := by
  by_cases hc : c = []
  · subst hc
    have : feed s [] = s := by unfold feed; simp
    rw [this]
    exact h
  · rcases hcur : s.currentFileName with _ | nm
    · rcases hfs : findStart (s.buffer ++ c) with _ | ⟨i, cap, len⟩
      · rw [feed_no_start s c hc hcur hfs]
        split
        · exact ⟨h.1, h.2.1, h.2.2⟩
        · exact ⟨h.1, h.2.1, h.2.2⟩
      · by_cases hbad : trim cap = [] ∨ (trim cap).length < 2 ∨ endsColon (trim cap) = true
        · rw [feed_skip s c i cap len hc hcur hfs (Or.inl hbad)]
          exact ⟨h.1, h.2.1, h.2.2⟩
        · by_cases hdup : trim cap ∈ s.createdFileNames
          · rw [feed_skip s c i cap len hc hcur hfs (Or.inr hdup)]
            exact ⟨h.1, h.2.1, h.2.2⟩
          · rw [feed_start s c i cap len hc hcur hfs hbad hdup]
            refine ⟨h.1, h.2.1, ?_⟩
            intro n hn
            simp only [Option.some.injEq] at hn
            subst hn
            exact hdup
    · rcases hfe : findEndIdx (s.buffer ++ c) with _ | i
      · rw [feed_progress s c nm hc hcur hfe]
        split
        · exact ⟨h.1, h.2.1, h.2.2⟩
        · exact ⟨h.1, h.2.1, h.2.2⟩
      · rw [feed_end s c nm i hc hcur hfe]
        obtain ⟨h1, h2, h3⟩ := h
        have hnm : nm ∉ s.createdFileNames := h3 nm hcur
        have hnm2 : nm ∉ s.generatedFiles.map Prod.fst := fun hmem => hnm ((h2 nm).mp hmem)
        refine ⟨?_, ?_, ?_⟩
        · dsimp only
          rw [List.map_append, List.nodup_append]
          refine ⟨h1, by simp, ?_⟩
          intro a ha hb
          simp only [List.map_cons, List.map_nil, List.mem_singleton] at hb
          subst hb
          exact hnm2 ha
        · intro n
          dsimp only
          rw [List.map_append]
          simp only [List.mem_append, List.map_cons, List.map_nil, List.mem_singleton,
            List.mem_cons]
          rw [h2 n]
          tauto
        · intro n hn
          dsimp only at hn
          exact absurd hn (by simp)

theorem decInv_foldl :
    ∀ (l : List Str) (s : DecState), DecInv s → DecInv (List.foldl feed s l) := by
  intro l
  induction l with
  | nil => intro s h; simpa using h
  | cons c cs ih =>
    intro s h
    simp only [List.foldl_cons]
    exact ih (feed s c) (decInv_feed s c h)

theorem decInv_decode (chunks : List Str) : DecInv (decode chunks) :=
  decInv_foldl chunks initState decInv_init

/-! ## Behaviour of the retry loop -/

theorem orch_good_now (f : Nat → AttemptResult) (fuel rc : Nat)
    (hrc : rc ≤ maxRetries) (hgood : goodStreamAt f rc) :
    (orchLoop f (fuel + 1) rc).attempts = 1 ∧ (orchLoop f (fuel + 1) rc).delays = [] ∧
      ∃ fl, (orchLoop f (fuel + 1) rc).result = Except.ok fl := by
  obtain ⟨chunks, hch, hok⟩ := hgood
  have hstep : orchLoop f (fuel + 1) rc = ⟨1, [], .ok (decode chunks).generatedFiles⟩ := by
    unfold orchLoop
    rw [if_neg (by omega : ¬ maxRetries < rc), hch]
    simp only [hok, if_true]
  rw [hstep]
  exact ⟨rfl, rfl, (decode chunks).generatedFiles, rfl⟩

theorem orch_busy_step (f : Nat → AttemptResult) (fuel rc : Nat)
    (hrc : rc ≤ maxRetries) (htrans : transientAt f rc) :
    orchLoop f (fuel + 1) rc =
      ⟨(orchLoop f fuel (rc + 1)).attempts + 1,
       2 ^ (rc + 1) * 1000 :: (orchLoop f fuel (rc + 1)).delays,
       (orchLoop f fuel (rc + 1)).result⟩ := by
  obtain ⟨st, hst, hor⟩ := htrans
  conv_lhs => unfold orchLoop
  rw [if_neg (by omega : ¬ maxRetries < rc)]
  simp only [hst]
  rw [if_pos hor]

theorem orch_fail_step (f : Nat → AttemptResult) (fuel rc : Nat)
    (hrc : rc + 1 ≤ maxRetries) (hfail : failAt f rc) :
    orchLoop f (fuel + 1) rc =
      ⟨(orchLoop f fuel (rc + 1)).attempts + 1,
       2 ^ (rc + 1) * 1000 :: (orchLoop f fuel (rc + 1)).delays,
       (orchLoop f fuel (rc + 1)).result⟩ := by
  conv_lhs => unfold orchLoop
  rw [if_neg (by omega : ¬ maxRetries < rc)]
  rcases hfail with ⟨st, hst⟩ | ⟨chunks, hch, hbad⟩
  · simp only [hst]
    by_cases hor : st = 503 ∨ st = 429
    · rw [if_pos hor]
    · rw [if_neg hor, if_neg (by omega : ¬ maxRetries < rc + 1)]
  · simp only [hch, hbad, Bool.false_eq_true, if_false]
    rw [if_neg (by omega : ¬ maxRetries < rc + 1)]

theorem orch_run (f : Nat → AttemptResult) :
    ∀ (n rc fuel : Nat), rc + n ≤ maxRetries → n < fuel →
      (∀ k, rc ≤ k → k < rc + n → transientAt f k) → goodStreamAt f (rc + n) →
      (orchLoop f fuel rc).attempts = n + 1 ∧
      (orchLoop f fuel rc).delays = (List.range n).map (fun j => 2 ^ (rc + 1 + j) * 1000) ∧
      ∃ fl, (orchLoop f fuel rc).result = Except.ok fl := by
  intro n
  induction n with
  | zero =>
    intro rc fuel hle hfuel htr hgood
    rcases fuel with _ | fuel
    · omega
    · simpa using orch_good_now f fuel rc (by omega) (by simpa using hgood)
  | succ n ih =>
    intro rc fuel hle hfuel htr hgood
    rcases fuel with _ | fuel
    · omega
    · rw [orch_busy_step f fuel rc (by omega) (htr rc (le_refl rc) (by omega))]
      have hgood' : goodStreamAt f (rc + 1 + n) := by
        have heq : rc + (n + 1) = rc + 1 + n := by omega
        rw [heq] at hgood
        exact hgood
      obtain ⟨ha, hd, fl, hr⟩ := ih (rc + 1) fuel (by omega) (by omega)
        (fun k hk1 hk2 => htr k (by omega) (by omega)) hgood'
      dsimp only
      refine ⟨by rw [ha], ?_, fl, by rw [hr]⟩
      rw [hd, List.range_succ_eq_map, List.map_cons, List.map_map]
      have hhead : (2:Nat) ^ (rc + 1) * 1000 = 2 ^ (rc + 1 + 0) * 1000 := by
        norm_num
      rw [hhead]
      congr 1
      apply List.map_congr_left
      intro j _
      simp only [Function.comp_apply]
      have hexp : rc + 1 + 1 + j = rc + 1 + (j + 1) := by omega
      rw [hexp]

theorem orch_exhaust (f : Nat → AttemptResult) :
    ∀ (fuel rc : Nat), maxRetries + 2 ≤ fuel + rc →
      (∀ k, rc ≤ k → k ≤ maxRetries → transientAt f k) →
      (orchLoop f fuel rc).attempts = maxRetries + 1 - rc ∧
      (orchLoop f fuel rc).result = Except.error FailReason.exhausted := by
  intro fuel
  induction fuel with
  | zero =>
    intro rc hle htr
    have h0 : orchLoop f 0 rc = ⟨0, [], .error .exhausted⟩ := rfl
    rw [h0]
    exact ⟨by dsimp; omega, rfl⟩
  | succ fuel ih =>
    intro rc hle htr
    by_cases hrc : maxRetries < rc
    · have h0 : orchLoop f (fuel + 1) rc = ⟨0, [], .error .exhausted⟩ := by
        unfold orchLoop
        rw [if_pos hrc]
      rw [h0]
      exact ⟨by dsimp; omega, rfl⟩
    · rw [orch_busy_step f fuel rc (by omega) (htr rc (le_refl rc) (by omega))]
      obtain ⟨ha, hr⟩ := ih (rc + 1) (by omega) (fun k h1 h2 => htr k (by omega) h2)
      dsimp only
      refine ⟨by rw [ha]; omega, by rw [hr]⟩

theorem orch_retry_once (f : Nat → AttemptResult) (h0 : failAt f 0) (h1 : goodStreamAt f 1) :
    (callGeminiAPI f).attempts = 2 ∧ (callGeminiAPI f).delays = [2000] ∧
      ∃ fl, (callGeminiAPI f).result = Except.ok fl := by
  unfold callGeminiAPI
  have h5 : maxRetries + 2 = 4 + 1 := rfl
  rw [h5]
  rw [orch_fail_step f 4 0 (by decide) h0]
  have h4 : (4 : Nat) = 3 + 1 := rfl
  rw [h4]
  obtain ⟨ha, hd, fl, hr⟩ := orch_good_now f 3 1 (by decide) h1
  dsimp only
  refine ⟨by rw [ha], by rw [hd]; norm_num, fl, by rw [hr]⟩

/-! ## Necessary conditions for validator acceptance -/

theorem validate_ok_necessary (content file_name : Str)
    (h : validate_content content file_name = .ok true) :
    50 ≤ (trim content).length ∧
    (jsonSuffix.isSuffixOf file_name = true → (json_loads content).isSome = true) ∧
    (file_name = manifestName →
      ∃ kvs, json_loads content = some (Json.obj kvs) ∧
        mvKey ∈ kvs.map Prod.fst ∧ nameKey ∈ kvs.map Prod.fst ∧ verKey ∈ kvs.map Prod.fst ∧
        ∃ m e, dictGet kvs mvKey = some (Json.num m e) ∧ numEq3 m e = true) := by
  unfold validate_content at h
  by_cases hlen : (trim content).length < 50
  · rw [if_pos hlen] at h
    simp at h
  · rw [if_neg hlen] at h
    refine ⟨by omega, ?_, ?_⟩
    · intro hsuf
      rw [if_pos hsuf] at h
      rcases hload : json_loads content with _ | data
      · rw [hload] at h
        simp at h
      · rfl
    · intro hman
      subst hman
      have hsuf : jsonSuffix.isSuffixOf manifestName = true := by decide
      rw [if_pos hsuf] at h
      rcases hload : json_loads content with _ | data
      · rw [hload] at h
        simp at h
      · rw [hload] at h
        dsimp only at h
        rw [if_pos (show manifestName = manifestName from rfl)] at h
        cases data with
        | null => simp [pyIn] at h
        | bool b => simp [pyIn] at h
        | num m e => simp [pyIn] at h
        | nan => simp [pyIn] at h
        | infinity => simp [pyIn] at h
        | negInfinity => simp [pyIn] at h
        | str sstr =>
          simp only [pyIn] at h
          by_cases h1 : containsSub sstr mvKey = false
          · rw [if_pos h1] at h; simp at h
          · rw [if_neg h1] at h
            by_cases h2 : containsSub sstr nameKey = false
            · rw [if_pos h2] at h; simp at h
            · rw [if_neg h2] at h
              by_cases h3 : containsSub sstr verKey = false
              · rw [if_pos h3] at h; simp at h
              · rw [if_neg h3] at h
                simp [pyGet] at h
        | arr xs =>
          simp only [pyIn] at h
          by_cases h1 : xs.any (fun j => match j with | .str s => s = mvKey | _ => false) = false
          · rw [if_pos h1] at h; simp at h
          · rw [if_neg h1] at h
            by_cases h2 : xs.any (fun j => match j with | .str s => s = nameKey | _ => false) = false
            · rw [if_pos h2] at h; simp at h
            · rw [if_neg h2] at h
              by_cases h3 : xs.any (fun j => match j with | .str s => s = verKey | _ => false) = false
              · rw [if_pos h3] at h; simp at h
              · rw [if_neg h3] at h
                simp [pyGet] at h
        | obj kvs =>
          simp only [pyIn] at h
          by_cases h1 : kvs.any (fun kv => kv.1 = mvKey) = false
          · rw [if_pos h1] at h; simp at h
          · rw [if_neg h1] at h
            by_cases h2 : kvs.any (fun kv => kv.1 = nameKey) = false
            · rw [if_pos h2] at h; simp at h
            · rw [if_neg h2] at h
              by_cases h3 : kvs.any (fun kv => kv.1 = verKey) = false
              · rw [if_pos h3] at h; simp at h
              · rw [if_neg h3] at h
                simp only [pyGet] at h
                have hmem : ∀ key : Str, kvs.any (fun kv => kv.1 = key) = true →
                    key ∈ kvs.map Prod.fst := by
                  intro key hany
                  obtain ⟨kv, hkv, hdec⟩ := List.any_eq_true.mp hany
                  exact List.mem_map.mpr ⟨kv, hkv, of_decide_eq_true hdec⟩
                refine ⟨kvs, rfl,
                  hmem mvKey ((Bool.eq_false_or_eq_true _).resolve_right h1),
                  hmem nameKey ((Bool.eq_false_or_eq_true _).resolve_right h2),
                  hmem verKey ((Bool.eq_false_or_eq_true _).resolve_right h3), ?_⟩
                by_cases h4 : pyNe3 (dictGet kvs mvKey) = true
                · rw [if_pos h4] at h; simp at h
                · rcases hget : dictGet kvs mvKey with _ | j
                  · rw [hget] at h4
                    simp [pyNe3] at h4
                  · cases j with
                    | num m e =>
                      refine ⟨m, e, rfl, ?_⟩
                      by_cases heq3 : numEq3 m e = true
                      · exact heq3
                      · rw [hget] at h4
                        simp [pyNe3, heq3] at h4
                    | null => rw [hget] at h4; simp [pyNe3] at h4
                    | bool b => rw [hget] at h4; simp [pyNe3] at h4
                    | str s2 => rw [hget] at h4; simp [pyNe3] at h4
                    | arr a2 => rw [hget] at h4; simp [pyNe3] at h4
                    | obj o2 => rw [hget] at h4; simp [pyNe3] at h4
                    | nan => rw [hget] at h4; simp [pyNe3] at h4
                    | infinity => rw [hget] at h4; simp [pyNe3] at h4
                    | negInfinity => rw [hget] at h4; simp [pyNe3] at h4

/-! ## The claims -/

/-- C1 counterexample: re-chunking invariance fails on the code.  The
specification scenario stream delivered one character at a time yields a
different final artifact list than the same text delivered as a single
chunk, because each delta processes at most one marker transition. -/
theorem C1_chunking_counterexample :
    (decode (scenarioText.map (fun ch => [ch]))).generatedFiles ≠
      (decode [scenarioText]).generatedFiles := by
  decide

/-- C1 amended: the decoder handles at most one marker per delta, so the
final artifact set depends on the chunking.  Per-character delivery of
the scenario stream yields both artifacts, while single-chunk delivery
only opens the first artifact and completes none. -/
theorem C1_chunking_amended :
    (decode (scenarioText.map (fun ch => [ch]))).generatedFiles =
      [(aJsonName, aJsonContent), (bTxtName, bTxtContent)] ∧
    (decode [scenarioText]).generatedFiles = [] ∧
    (decode [scenarioText]).currentFileName = some aJsonName := by
  decide

/-- C2 counterexample: an HTTP 500 — outside the retryable set claimed
by the specification — does not terminate the session; the orchestrator
retries and succeeds on the second attempt. -/
theorem C2_counterexample :
    (callGeminiAPI cexF).attempts = 2 ∧
    (callGeminiAPI cexF).result = Except.ok [(manifestName, "mc".data)] := by
  decide

/-- C2 amended: HTTP 429 and 503 take the in-line busy-retry path, but
every other failure — any other non-OK status, and a stream that ends
without the manifest artifact — is also retried with the same
exponential backoff; only exhausting `maxRetries` is fatal.  Any first
attempt failure followed by a good stream yields success in two
attempts after one backoff delay. -/
theorem C2_amended_all_failures_retry :
    ∀ f : Nat → AttemptResult, failAt f 0 → goodStreamAt f 1 →
      (callGeminiAPI f).attempts = 2 ∧ (callGeminiAPI f).delays = [2000] ∧
        ∃ fl, (callGeminiAPI f).result = Except.ok fl :=
  fun f h0 h1 => orch_retry_once f h0 h1

/-- C2 amended, witness: the HTTP-500-then-success run retries and
succeeds with one 2000 ms delay. -/
theorem C2_amended_all_failures_retry_witness :
    (callGeminiAPI cexF).attempts = 2 ∧ (callGeminiAPI cexF).delays = [2000] ∧
      ∃ fl, (callGeminiAPI cexF).result = Except.ok fl :=
  C2_amended_all_failures_retry cexF (Or.inl ⟨500, rfl⟩) ⟨goodChunks, rfl, by decide⟩

/-- C3: an artifact is created only from a complete start-marker line.
First conjunct: any start-regex match decomposes the buffer into the
case-insensitive literal, whitespace, a non-empty newline-free name and
the terminating line break, all present in the buffer.  Second
conjunct: while no complete marker is in the buffer, `feed` opens no
artifact, completes nothing and emits no started event. -/
theorem C3_no_partial_start :
    (∀ (b : Str) (i : Nat) (cap : Str) (len : Nat), findStart b = some (i, cap, len) →
      ∃ lit ws', ciStr fileStartPat lit = true ∧ (∀ x ∈ ws', wsChar x = true) ∧
        cap ≠ [] ∧ (∀ x ∈ cap, x ≠ '\n') ∧
        b = b.take i ++ (lit ++ (ws' ++ (cap ++ '\n' :: b.drop (i + len)))) ∧
        len = lit.length + ws'.length + cap.length + 1) ∧
    (∀ (s : DecState) (c : Str), c ≠ [] → s.currentFileName = none →
      findStart (s.buffer ++ c) = none →
      (feed s c).currentFileName = none ∧ (feed s c).generatedFiles = s.generatedFiles ∧
        (feed s c).fileIndex = s.fileIndex) ∧
    (∀ (s : DecState) (c : Str), c ≠ [] → s.currentFileName = none →
      (feed s c).currentFileName ≠ none → findStart (s.buffer ++ c) ≠ none) := by
  refine ⟨findStart_decomp, ?_, ?_⟩
  · intro s c hc hcur hfs
    rw [feed_no_start s c hc hcur hfs]
    split
    · exact ⟨hcur, rfl, rfl⟩
    · exact ⟨hcur, rfl, rfl⟩
  · intro s c hc hcur hcreate hfs
    apply hcreate
    rw [feed_no_start s c hc hcur hfs]
    split
    · exact hcur
    · exact hcur

/-- C3 witness: the complete marker line `FILE_START: ab\n` decomposes
as required, and feeding the marker prefix `FILE_START: ab` (no line
break yet) to a fresh state opens no artifact. -/
theorem C3_no_partial_start_witness :
    (∃ lit ws', ciStr fileStartPat lit = true ∧ (∀ x ∈ ws', wsChar x = true) ∧
      abName ≠ [] ∧ (∀ x ∈ abName, x ≠ '\n') ∧
      c3Buf = c3Buf.take 0 ++ (lit ++ (ws' ++ (abName ++ '\n' :: c3Buf.drop (0 + 15)))) ∧
      15 = lit.length + ws'.length + abName.length + 1) ∧
    ((feed initState partialChunk).currentFileName = none ∧
     (feed initState partialChunk).generatedFiles = initState.generatedFiles ∧
     (feed initState partialChunk).fileIndex = initState.fileIndex) :=
  ⟨C3_no_partial_start.1 c3Buf 0 abName 15 (by decide),
   C3_no_partial_start.2.1 initState partialChunk (by decide) rfl (by decide)⟩

/-- C4: with transient errors (HTTP 503/429) on the first `r` attempts
and a good stream on attempt `r + 1`, the orchestrator makes exactly
`r + 1` attempts and sleeps `1000 * 2 ^ k` ms before retry `k` for
`k = 1, ..., r`; with transients on every attempt it fails after exactly
`maxAttempts = maxRetries + 1` attempts. -/
theorem C4_retry_schedule :
    (∀ (f : Nat → AttemptResult) (r : Nat), r ≤ maxRetries →
      (∀ k, k < r → transientAt f k) → goodStreamAt f r →
      (callGeminiAPI f).attempts = r + 1 ∧
      (callGeminiAPI f).delays = (List.range r).map (fun k => 2 ^ (k + 1) * 1000) ∧
      ∃ fl, (callGeminiAPI f).result = Except.ok fl) ∧
    (∀ f : Nat → AttemptResult, (∀ k, k ≤ maxRetries → transientAt f k) →
      (callGeminiAPI f).attempts = maxAttempts ∧
      (callGeminiAPI f).result = Except.error FailReason.exhausted) := by
  constructor
  · intro f r hr htr hgood
    unfold callGeminiAPI
    obtain ⟨ha, hd, fl, hres⟩ := orch_run f r 0 (maxRetries + 2) (by omega) (by omega)
      (fun k _ h2 => htr k (by omega)) (by simpa using hgood)
    refine ⟨ha, ?_, fl, hres⟩
    rw [hd]
    apply List.map_congr_left
    intro j _
    have hj : 0 + 1 + j = j + 1 := by omega
    rw [hj]
  · intro f htr
    unfold callGeminiAPI
    obtain ⟨ha, hres⟩ := orch_exhaust f (maxRetries + 2) 0 (by omega) (fun k _ h2 => htr k h2)
    refine ⟨?_, hres⟩
    rw [ha]
    unfold maxAttempts
    omega

/-- C4 witness: two 503s then a good stream makes three attempts with
delays 2000 and 4000 ms; constant 429s fail after four attempts. -/
theorem C4_retry_schedule_witness :
    ((callGeminiAPI busy2F).attempts = 2 + 1 ∧
     (callGeminiAPI busy2F).delays = (List.range 2).map (fun k => 2 ^ (k + 1) * 1000) ∧
     ∃ fl, (callGeminiAPI busy2F).result = Except.ok fl) ∧
    ((callGeminiAPI busyF).attempts = maxAttempts ∧
     (callGeminiAPI busyF).result = Except.error FailReason.exhausted) :=
  ⟨C4_retry_schedule.1 busy2F 2 (by decide)
     (fun k hk => ⟨503, by unfold busy2F; rw [if_pos hk], Or.inl rfl⟩)
     ⟨goodChunks, rfl, by decide⟩,
   C4_retry_schedule.2 busyF (fun k _ => ⟨429, rfl, Or.inr rfl⟩)⟩

/-- C5: the final artifact set never holds two artifacts of the same
name, and a start delimiter whose (trimmed) name was already completed
only advances the buffer past the marker: no artifact is opened, no
event is emitted and the completed set is unchanged. -/
theorem C5_duplicate_start_ignored :
    (∀ chunks : List Str, ((decode chunks).generatedFiles.map Prod.fst).Nodup) ∧
    (∀ (s : DecState) (c : Str) (i : Nat) (cap : Str) (len : Nat), c ≠ [] →
      s.currentFileName = none → findStart (s.buffer ++ c) = some (i, cap, len) →
      trim cap ∈ s.createdFileNames →
      feed s c = { s with buffer := (s.buffer ++ c).drop (i + len) }) := by
  constructor
  · intro chunks
    exact (decInv_decode chunks).1
  · intro s c i cap len hc hcur hfs hdup
    exact feed_skip s c i cap len hc hcur hfs (Or.inr hdup)

/-- C5 witness: after `a.json` is complete, a second
`FILE_START: a.json` marker only drops the marker text from the buffer,
and the per-character scenario decode has pairwise-distinct names. -/
theorem C5_duplicate_start_ignored_witness :
    ((decode (scenarioText.map (fun ch => [ch]))).generatedFiles.map Prod.fst).Nodup ∧
    feed dupState dupChunk =
      { dupState with buffer := (dupState.buffer ++ dupChunk).drop (0 + 19) } :=
  ⟨C5_duplicate_start_ignored.1 _,
   C5_duplicate_start_ignored.2 dupState dupChunk 0 aJsonName 19 (by decide) rfl (by decide)
     (by decide)⟩

/-- C6: a stream that ends while an artifact is still open never has
that artifact in the final completed set: the open name is never among
the completed names. -/
theorem C6_pending_never_final :
    ∀ (chunks : List Str) (n : Str), (decode chunks).currentFileName = some n →
      n ∉ (decode chunks).generatedFiles.map Prod.fst := by
  intro chunks n hcur hmem
  obtain ⟨_, h2, h3⟩ := decInv_decode chunks
  exact h3 n hcur ((h2 n).mp hmem)

/-- C6 witness: a stream that opens `ab` and ends before any end marker
leaves `ab` out of the final set. -/
theorem C6_pending_never_final_witness :
    abName ∉ (decode truncChunks).generatedFiles.map Prod.fst :=
  C6_pending_never_final truncChunks abName (by decide)

/-- C7: acceptance by `validate_content` requires trimmed length at
least 50; a `.json` name requires the content to parse; and
`manifest.json` additionally requires a JSON object carrying the
top-level keys `manifest_version`, `name` and `version` with
`manifest_version` of value 3. -/
theorem C7_validator_rules (content file_name : Str)
    (h : validate_content content file_name = Except.ok true) :
    50 ≤ (trim content).length ∧
    (jsonSuffix.isSuffixOf file_name = true → (json_loads content).isSome = true) ∧
    (file_name = manifestName →
      ∃ kvs, json_loads content = some (Json.obj kvs) ∧
        mvKey ∈ kvs.map Prod.fst ∧ nameKey ∈ kvs.map Prod.fst ∧ verKey ∈ kvs.map Prod.fst ∧
        ∃ m e, dictGet kvs mvKey = some (Json.num m e) ∧ numEq3 m e = true) :=
  validate_ok_necessary content file_name h

/-- C7 witness: a concrete accepted manifest satisfies all three
necessary conditions. -/
theorem C7_validator_rules_witness :
    50 ≤ (trim mContent).length ∧
    (jsonSuffix.isSuffixOf manifestName = true → (json_loads mContent).isSome = true) ∧
    (manifestName = manifestName →
      ∃ kvs, json_loads mContent = some (Json.obj kvs) ∧
        mvKey ∈ kvs.map Prod.fst ∧ nameKey ∈ kvs.map Prod.fst ∧ verKey ∈ kvs.map Prod.fst ∧
        ∃ m e, dictGet kvs mvKey = some (Json.num m e) ∧ numEq3 m e = true) :=
  C7_validator_rules mContent manifestName (by decide)

/-- C8: when the end delimiter matches, the completed artifact's
content is exactly the buffer text before the delimiter with trailing
whitespace trimmed, the name joins the seen set, the pair is appended
to the completed list, and the buffer is cut after the end-marker line
(or emptied when its line break has not arrived). -/
theorem C8_end_delimiter_completion :
    ∀ (s : DecState) (c : Str) (nm : Str) (i : Nat), c ≠ [] →
      s.currentFileName = some nm → findEndIdx (s.buffer ++ c) = some i →
      litAt fileEndPat ((s.buffer ++ c).drop i) = true ∧
      feed s c = { buffer :=
                     match idxOf (fun ch => ch = '\n') ((s.buffer ++ c).drop i) with
                     | some j => (s.buffer ++ c).drop (i + j + 1)
                     | none => []
                   currentFileName := none
                   currentFileContent := []
                   generatedFiles := s.generatedFiles ++ [(nm, trimEnd ((s.buffer ++ c).take i))]
                   createdFileNames := nm :: s.createdFileNames
                   fileIndex := s.fileIndex
                   streamingText := s.streamingText } := by
  intro s c nm i hc hcur hfe
  exact ⟨findEndIdx_lit _ _ hfe, feed_end s c nm i hc hcur hfe⟩

/-- C8 witness: ending the open `a.json` with `xFILE_END: a.json\n`
freezes content `x`, records the name and consumes through the marker
line. -/
theorem C8_end_delimiter_completion_witness :
    litAt fileEndPat ((pendState.buffer ++ endChunk1).drop 1) = true ∧
    feed pendState endChunk1 =
      { buffer :=
          match idxOf (fun ch => ch = '\n') ((pendState.buffer ++ endChunk1).drop 1) with
          | some j => (pendState.buffer ++ endChunk1).drop (1 + j + 1)
          | none => []
        currentFileName := none
        currentFileContent := []
        generatedFiles := pendState.generatedFiles ++
          [(aJsonName, trimEnd ((pendState.buffer ++ endChunk1).take 1))]
        createdFileNames := aJsonName :: pendState.createdFileNames
        fileIndex := pendState.fileIndex
        streamingText := pendState.streamingText } :=
  C8_end_delimiter_completion pendState endChunk1 aJsonName 1 (by decide) rfl (by decide)

/-- C9: a start marker whose trimmed name is empty, shorter than two
characters, or colon-terminated opens no artifact and emits no event;
the state only advances the buffer past the offending marker. -/
theorem C9_invalid_name_noise :
    ∀ (s : DecState) (c : Str) (i : Nat) (cap : Str) (len : Nat), c ≠ [] →
      s.currentFileName = none → findStart (s.buffer ++ c) = some (i, cap, len) →
      (trim cap = [] ∨ (trim cap).length < 2 ∨ endsColon (trim cap) = true) →
      feed s c = { s with buffer := (s.buffer ++ c).drop (i + len) } := by
  intro s c i cap len hc hcur hfs hbad
  exact feed_skip s c i cap len hc hcur hfs (Or.inl hbad)

/-- C9 witness: the single-character name `q` is skipped as noise. -/
theorem C9_invalid_name_noise_witness :
    feed initState badNameChunk =
      { initState with buffer := (initState.buffer ++ badNameChunk).drop (0 + 14) } :=
  C9_invalid_name_noise initState badNameChunk 0 ("q".data) 14 (by decide) rfl (by decide)
    (by decide)

/-- C10: the end-delimiter handling never compares the marker's own
name with the open artifact: two buffers agreeing before their first
end literal complete the same artifact with the same content, whatever
name text follows the literal. -/
theorem C10_end_name_irrelevant :
    ∀ (s : DecState) (nm : Str) (c₁ c₂ : Str) (i₁ i₂ : Nat), c₁ ≠ [] → c₂ ≠ [] →
      s.currentFileName = some nm →
      findEndIdx (s.buffer ++ c₁) = some i₁ → findEndIdx (s.buffer ++ c₂) = some i₂ →
      (s.buffer ++ c₁).take i₁ = (s.buffer ++ c₂).take i₂ →
      (feed s c₁).generatedFiles =
        s.generatedFiles ++ [(nm, trimEnd ((s.buffer ++ c₁).take i₁))] ∧
      (feed s c₂).generatedFiles = (feed s c₁).generatedFiles ∧
      (feed s c₁).currentFileName = none ∧ (feed s c₂).currentFileName = none := by
  intro s nm c₁ c₂ i₁ i₂ hc₁ hc₂ hcur hf₁ hf₂ htake
  rw [feed_end s c₁ nm i₁ hc₁ hcur hf₁, feed_end s c₂ nm i₂ hc₂ hcur hf₂]
  refine ⟨rfl, ?_, rfl, rfl⟩
  dsimp only
  rw [htake]

/-- C10 witness: `FILE_END: zzz.txt` completes the open `a.json` with
the same content as `FILE_END: a.json` does. -/
theorem C10_end_name_irrelevant_witness :
    (feed pendState endChunk1).generatedFiles =
      pendState.generatedFiles ++ [(aJsonName, trimEnd ((pendState.buffer ++ endChunk1).take 1))] ∧
    (feed pendState endChunk2).generatedFiles = (feed pendState endChunk1).generatedFiles ∧
    (feed pendState endChunk1).currentFileName = none ∧
    (feed pendState endChunk2).currentFileName = none :=
  C10_end_name_irrelevant pendState aJsonName endChunk1 endChunk2 1 1 (by decide) (by decide)
    rfl (by decide) (by decide) (by decide)
